import Mathlib

/-!
Verification development for the numeric-series extractor and the
visualization-request classifier of `src/knowledge/docling/5-chat.py`.

The Python functions `extract_data_for_visualization`,
`detect_visualization_request` and their fixed pattern/keyword tables are
shallowly embedded below.  Python regular expressions are modelled by a
small backtracking matcher (`matchToks` / `findAll`) over token lists that
transcribe the source regexes one token at a time; Python `float` values
are modelled as exact rationals (all numeric literals reaching the
extractor are decimal strings, so parsing and comparison are exact);
Python character classes (`\w`, `\s`, `\d`) are modelled at ASCII level,
matching every input exercised by the claims.
-/

/-- The space character, written via its code point. -/
def spaceChar : Char := Char.ofNat 32

/-- Python regex `\s` (whitespace class), ASCII range. -/
def isSpaceChar (c : Char) : Bool :=
  c == spaceChar || c == Char.ofNat 9 || c == Char.ofNat 10 ||
  c == Char.ofNat 11 || c == Char.ofNat 12 || c == Char.ofNat 13

/-- Python regex `\w` (word character class): letters, digits, underscore. -/
def isWordChar (c : Char) : Bool :=
  c.isAlphanum || c == '_'

/-- The character class kept by `re.sub(r'[^\w\s\-&]', '', category)` in
`extract_data_for_visualization` (5-chat.py line 187): word characters,
whitespace, `&` and `-`. -/
def keepChar (c : Char) : Bool :=
  isWordChar c || isSpaceChar c || c == '&' || c == '-'

/-- Quantifiers occurring in the source regexes. -/
inductive Quant where
  | one
  | plus
  | plusLazy
  | star
  | opt
deriving Repr

/-- One token of a source regex: a literal string, or a single character
class under a quantifier, optionally contributing its text to capture
group 1 or 2. -/
inductive Tok where
  | lit : List Char → Tok
  | cls : (Char → Bool) → Quant → Option Nat → Tok

/-- The sequence of consumption lengths a quantified class tries, in the
order Python's backtracking engine tries them (greedy: longest first;
lazy: shortest first). `maxRun` is the length of the maximal run of
class characters at the current position. -/
def ksFor (q : Quant) (maxRun : Nat) : List Nat :=
  match q with
  | .one => if maxRun = 0 then [] else [1]
  | .plus => (List.range maxRun).reverse.map (· + 1)
  | .plusLazy => (List.range maxRun).map (· + 1)
  | .star => (List.range (maxRun + 1)).reverse
  | .opt => if maxRun = 0 then [0] else [1, 0]

/-- Add a consumed text to the capture currently being built. -/
def addCap (g : Option Nat) (t : List Char) (caps : List Char × List Char) :
    List Char × List Char :=
  match g with
  | some 1 => (t ++ caps.1, caps.2)
  | some 2 => (caps.1, t ++ caps.2)
  | _ => caps

/-- Backtracking matcher: match the token list at the head of `chars`,
returning the remaining characters and the texts of capture groups 1
and 2.  Enumeration order mirrors Python's `re` backtracking. -/
def matchToks (toks : List Tok) (chars : List Char) :
    Option (List Char × List Char × List Char) :=
  match toks with
  | [] => some (chars, [], [])
  | Tok.lit s :: ts =>
    if s.isPrefixOf chars then matchToks ts (chars.drop s.length) else none
  | Tok.cls p q g :: ts =>
    let maxRun := (chars.takeWhile p).length
    (ksFor q maxRun).findSome? (fun k =>
      match matchToks ts (chars.drop k) with
      | some (rest, g1, g2) =>
        let caps := addCap g (chars.take k) (g1, g2)
        some (rest, caps.1, caps.2)
      | none => none)

/-- A raw match: the texts of capture groups 1 and 2 (Python `re.findall`
returns exactly these tuples for our two-group patterns). -/
abbrev RawMatch := List Char × List Char

/-- `re.findall` scanning loop, fuelled for structural recursion: try the
pattern at each position left to right; on a match, emit the group pair
and continue after the match. -/
def findAllAux (p : List Tok) : Nat → List Char → List RawMatch
  | 0, _ => []
  | fuel + 1, chars =>
    match chars with
    | [] =>
      match matchToks p [] with
      | some (_, g1, g2) => [(g1, g2)]
      | none => []
    | c :: cs =>
      match matchToks p (c :: cs) with
      | some (rest, g1, g2) =>
        if rest.length < (c :: cs).length then (g1, g2) :: findAllAux p fuel rest
        else (g1, g2) :: findAllAux p fuel cs
      | none => findAllAux p fuel cs

/-- `re.findall(pattern, text)` for the embedded patterns. -/
def findAll (p : List Tok) (chars : List Char) : List RawMatch :=
  findAllAux p (chars.length + 1) chars

/-- Capture group `([^:=\n]+)` of the first source pattern. -/
def g1NotColonEqNl : Tok :=
  Tok.cls (fun c => !(c == ':' || c == '=' || c == '\n')) Quant.plus (some 1)

/-- Capture group `([^=\n]+)`. -/
def g1NotEqNl : Tok :=
  Tok.cls (fun c => !(c == '=' || c == '\n')) Quant.plus (some 1)

/-- Capture group `([^,\n]+)`. -/
def g1NotCommaNl : Tok :=
  Tok.cls (fun c => !(c == ',' || c == '\n')) Quant.plus (some 1)

/-- Capture group `([^:]+?)` (lazy). -/
def g1NotColonLazy : Tok :=
  Tok.cls (fun c => !(c == ':')) Quant.plusLazy (some 1)

/-- `\s*`. -/
def wsStar : Tok := Tok.cls isSpaceChar Quant.star none

/-- Capture group `([\d,]+\.?\d*)` — the numeric group of every source
pattern, transcribed as three quantified classes all feeding group 2. -/
def numGroup2 : List Tok :=
  [ Tok.cls (fun c => c.isDigit || c == ',') Quant.plus (some 2),
    Tok.cls (fun c => c == '.') Quant.opt (some 2),
    Tok.cls Char.isDigit Quant.star (some 2) ]

/-- The fixed ordered pattern table of `extract_data_for_visualization`
(5-chat.py lines 155–174), one entry per source regex, in source order. -/
def patterns : List (List Tok) :=
  [ -- r'([^:=\n]+)[:=]\s*([\d,]+\.?\d*)'
    [ g1NotColonEqNl, Tok.cls (fun c => c == ':' || c == '=') Quant.one none,
      wsStar ] ++ numGroup2,
    -- r'([^=\n]+)=\s*([\d,]+\.?\d*)'
    [ g1NotEqNl, Tok.lit [ '=' ], wsStar ] ++ numGroup2,
    -- r'([^,\n]+),\s*([\d,]+\.?\d*)'
    [ g1NotCommaNl, Tok.lit [ ',' ], wsStar ] ++ numGroup2,
    -- r'([^:]+?)\s*Credit\s*directed:\s*KD\s*([\d,]+\.?\d*)\s*billion'
    [ g1NotColonLazy, wsStar, Tok.lit "Credit".toList, wsStar,
      Tok.lit "directed:".toList, wsStar, Tok.lit "KD".toList, wsStar ] ++
      numGroup2 ++ [ wsStar, Tok.lit "billion".toList ],
    -- r'([^:]+?)\s*Credit\s*directed:\s*([\d,]+\.?\d*)'
    [ g1NotColonLazy, wsStar, Tok.lit "Credit".toList, wsStar,
      Tok.lit "directed:".toList, wsStar ] ++ numGroup2,
    -- r'([^:]+?)\s*Share:\s*([\d,]+\.?\d*)%'
    [ g1NotColonLazy, wsStar, Tok.lit "Share:".toList, wsStar ] ++
      numGroup2 ++ [ Tok.lit [ '%' ] ],
    -- r'([^:]+?)\s*Total:\s*KD\s*([\d,]+\.?\d*)\s*billion'
    [ g1NotColonLazy, wsStar, Tok.lit "Total:".toList, wsStar,
      Tok.lit "KD".toList, wsStar ] ++ numGroup2 ++
      [ wsStar, Tok.lit "billion".toList ],
    -- r'([^:]+?)\s*Total:\s*([\d,]+\.?\d*)\s*billion'
    [ g1NotColonLazy, wsStar, Tok.lit "Total:".toList, wsStar ] ++
      numGroup2 ++ [ wsStar, Tok.lit "billion".toList ],
    -- r'([^:]+?)\s*KD\s*([\d,]+\.?\d*)\s*billion'
    [ g1NotColonLazy, wsStar, Tok.lit "KD".toList, wsStar ] ++
      numGroup2 ++ [ wsStar, Tok.lit "billion".toList ],
    -- r'([^:]+?)\s*([\d,]+\.?\d*)\s*billion'
    [ g1NotColonLazy, wsStar ] ++ numGroup2 ++
      [ wsStar, Tok.lit "billion".toList ],
    -- r'([^:]+?)\s*([\d,]+\.?\d*)\s*million'
    [ g1NotColonLazy, wsStar ] ++ numGroup2 ++
      [ wsStar, Tok.lit "million".toList ],
    -- r'([^:]+?)\s*([\d,]+\.?\d*)\s*thousand'
    [ g1NotColonLazy, wsStar ] ++ numGroup2 ++
      [ wsStar, Tok.lit "thousand".toList ],
    -- r'([^:]+?)\s*([\d,]+\.?\d*)%'
    [ g1NotColonLazy, wsStar ] ++ numGroup2 ++ [ Tok.lit [ '%' ] ],
    -- r'([^:]+?)\s*([\d,]+\.?\d*)\s*units'
    [ g1NotColonLazy, wsStar ] ++ numGroup2 ++
      [ wsStar, Tok.lit "units".toList ],
    -- r'([^:]+?)\s*([\d,]+\.?\d*)\s*properties'
    [ g1NotColonLazy, wsStar ] ++ numGroup2 ++
      [ wsStar, Tok.lit "properties".toList ] ]

/-- The fallback number pattern `r'(\d+\.?\d*)'` (5-chat.py line 212);
its single group is returned in the first component of a `RawMatch`. -/
def numberToks : List Tok :=
  [ Tok.cls Char.isDigit Quant.plus (some 1),
    Tok.cls (fun c => c == '.') Quant.opt (some 1),
    Tok.cls Char.isDigit Quant.star (some 1) ]

/-- Python `str.strip()`: drop whitespace from both ends. -/
def pyStrip (l : List Char) : List Char :=
  ((l.dropWhile isSpaceChar).reverse.dropWhile isSpaceChar).reverse

/-- Worker for `re.sub(r'\s+', ' ', _)`: each maximal whitespace run is
replaced by a single space; the flag records whether the previous
character was whitespace. -/
def collapseWsAux : List Char → Bool → List Char
  | [], _ => []
  | c :: cs, inRun =>
    if isSpaceChar c then
      if inRun then collapseWsAux cs true else spaceChar :: collapseWsAux cs true
    else c :: collapseWsAux cs false

/-- `re.sub(r'\s+', ' ', category)` (5-chat.py line 186). -/
def collapseWs (l : List Char) : List Char := collapseWsAux l false

/-- Substring containment, Python's `needle in hay`. -/
def containsSub (needle hay : List Char) : Bool :=
  hay.tails.any (fun t => needle.isPrefixOf t)

/-- Numeric value of a list of decimal digit characters. -/
def digitsVal (ds : List Char) : Nat :=
  ds.foldl (fun a c => a * 10 + (c.toNat - 48)) 0

/-- Python `float(s)` on the digit/dot strings produced by the source
patterns (commas already removed): `none` models `ValueError`.  The value
of `"i.f"` is the exact rational `(i * 10^|f| + f) / 10^|f|`, built with
`mkRat` so that it evaluates by kernel reduction. -/
def parseFloat (s : List Char) : Option ℚ :=
  let ipart := s.takeWhile (fun c => !(c == '.'))
  let rest := s.dropWhile (fun c => !(c == '.'))
  if !(ipart.all Char.isDigit) then none
  else
    match rest with
    | [] => if ipart.isEmpty then none else some (mkRat (digitsVal ipart) 1)
    | _ :: fpart =>
      if !(fpart.all Char.isDigit) then none
      else if ipart.isEmpty && fpart.isEmpty then none
      else some (mkRat (digitsVal ipart * 10 ^ fpart.length + digitsVal fpart) (10 ^ fpart.length))

/-- The number of hundredths closest to a rational `v` (ties to even):
the rounding Python's fixed-point formatting applies to `100 * v`.
Written with integer arithmetic on numerator and denominator so that it
evaluates by kernel reduction: with `n = 100 * v.num` and `d = v.den`,
the floor of `n / d` is incremented when the remainder exceeds half of
`d`, and on an exact half the even neighbour wins. -/
def roundCentsHalfEven (v : ℚ) : ℤ :=
  let n : ℤ := 100 * v.num
  let d : ℤ := (v.den : ℤ)
  let f : ℤ := Int.fdiv n d
  let r2 : ℤ := 2 * (n - f * d)
  if r2 < d then f
  else if d < r2 then f + 1
  else if f % 2 = 0 then f else f + 1

/-- Insert a comma after every third digit; input and output are in
least-significant-first order. -/
def commaGroupRev : List Char → List Char
  | [] => []
  | [ a ] => [ a ]
  | [ a, b ] => [ a, b ]
  | [ a, b, c ] => [ a, b, c ]
  | a :: b :: c :: d :: rest => a :: b :: c :: ',' :: commaGroupRev (d :: rest)

/-- Decimal digits of a natural number, most significant first. -/
def natDigits (n : Nat) : List Char := Nat.toDigits 10 n

/-- Integer part of Python's `'{:,.2f}'` formatting: decimal digits with
thousands separators. -/
def commaFmt (n : Nat) : List Char := (commaGroupRev (natDigits n).reverse).reverse

/-- Python `'{:,.2f}'.format(value)` for the positive values the source
formats: thousands separators and exactly two decimals. -/
def formatVal (v : ℚ) : String :=
  let cents := (roundCentsHalfEven v).toNat
  String.mk (commaFmt (cents / 100) ++ [ '.' ] ++
    (if cents % 100 < 10 then '0' :: natDigits (cents % 100) else natDigits (cents % 100)))

/-- The display string `f"{category}: {value:,.2f}"` (5-chat.py lines 197
and 220). -/
def mkLabel (cat : String) (v : ℚ) : String := cat ++ ": " ++ formatVal v

/-- Worker for Python `str.title()`: uppercase a letter that starts a
word, lowercase the rest; the flag records whether the previous
character was a letter. -/
def pyTitleAux : List Char → Bool → List Char
  | [], _ => []
  | c :: cs, prevCased =>
    if c.isAlpha then
      (if prevCased then c.toLower else c.toUpper) :: pyTitleAux cs true
    else c :: pyTitleAux cs false

/-- Python `str.title()` (used as `keyword.title()` at 5-chat.py line 218). -/
def pyTitle (l : List Char) : List Char := pyTitleAux l false

/-- The `data` dictionary built by `extract_data_for_visualization`
(5-chat.py lines 146–152). -/
structure VizData where
  categories : List String
  values : List ℚ
  labels : List String
  chart_type : String
  title : String
deriving Repr

/-- The initial `data` dictionary (5-chat.py lines 146–152). -/
def initData : VizData :=
  { categories := [], values := [], labels := [],
    chart_type := "bar", title := "Real Estate Data Visualization" }

/-- The denylist checked against the lower-cased category (5-chat.py
line 191). -/
def skipWords : List String :=
  [ "source:", "page", "file", "pdf", "report", "title" ]

/-- The per-match candidate computation of the main extraction loop
(5-chat.py lines 179–191): strip the raw category, drop commas from the
raw value, parse it, require a non-empty category and a positive value,
clean the category (collapse whitespace, strip, remove characters
outside `[\w\s\-&]`), require length above 3 and no denylist word.
Returns the surviving `(category, value)` candidate, `none` otherwise.
The duplicate test against the accumulated result (line 194) is the only
part of the loop body that depends on the accumulator and lives in
`processMatch`. -/
def candOf (m : RawMatch) : Option (String × ℚ) :=
  let category0 := pyStrip m.1
  let value_str := m.2.filter (fun c => !(c == ','))
  match parseFloat value_str with
  | none => none
  | some value =>
    if category0.isEmpty then none
    else if value ≤ 0 then none
    else
      let category := (pyStrip (collapseWs category0)).filter keepChar
      if category.length ≤ 3 then none
      else if skipWords.any (fun w => containsSub w.toList (category.map Char.toLower)) then none
      else some (String.mk category, value)

/-- One iteration of the main extraction loop (5-chat.py lines 178–197):
append the candidate unless its category is already present. -/
def processMatch (d : VizData) (m : RawMatch) : VizData :=
  match candOf m with
  | none => d
  | some (cat, value) =>
    if cat ∈ d.categories then d
    else { d with categories := d.categories ++ [ cat ],
                  values := d.values ++ [ value ],
                  labels := d.labels ++ [ mkLabel cat value ] }

/-- The fallback keyword table (5-chat.py lines 203–207). -/
def real_estate_keywords : List String :=
  [ "real estate", "construction", "housing", "credit", "facilities",
    "instalment", "private", "model", "total", "residential", "commercial",
    "investment", "development", "market", "price", "value" ]

/-- The per-keyword candidate of the fallback loop (5-chat.py lines
209–220): if the keyword occurs in the lower-cased text and the text
contains a plain number, pair the title-cased keyword with the first
such number when it is positive. -/
def fallbackCandOf (text : List Char) (keyword : String) : Option (String × ℚ) :=
  if containsSub keyword.toList (text.map Char.toLower) then
    match findAll numberToks text with
    | [] => none
    | n :: _ =>
      match parseFloat n.1 with
      | none => none
      | some value =>
        if 0 < value then some (String.mk (pyTitle keyword.toList), value) else none
  else none

/-- One iteration of the fallback loop (5-chat.py lines 209–222): the
fallback appends unconditionally, with no duplicate test. -/
def fallbackStep (text : List Char) (d : VizData) (keyword : String) : VizData :=
  match fallbackCandOf text keyword with
  | none => d
  | some (cat, value) =>
    { d with categories := d.categories ++ [ cat ],
             values := d.values ++ [ value ],
             labels := d.labels ++ [ mkLabel cat value ] }

/-- All raw matches of all patterns, in pattern order then match order —
the iteration space of the nested loops at 5-chat.py lines 176–178. -/
def allMatches (text : List Char) : List RawMatch :=
  (patterns.map (fun p => findAll p text)).flatten

/-- The extractor state after the main loop and the fallback (5-chat.py
lines 146–222), before finalization. -/
def collectData (text : String) : VizData :=
  let t := text.toList
  let d1 := (allMatches t).foldl processMatch initData
  if d1.values.isEmpty then real_estate_keywords.foldl (fallbackStep t) d1 else d1

/-- `sorted(zip(categories, values), key=lambda x: x[1], reverse=True)`
(5-chat.py line 227): Python's sort is stable, and with `reverse=True`
equal keys still keep their original order, which is exactly insertion
sort by the total preorder "value not below". -/
def sortByValueDesc (l : List (String × ℚ)) : List (String × ℚ) :=
  l.insertionSort (fun a b => b.2 ≤ a.2)

/-- Finalization (5-chat.py lines 224–234): when any value was collected,
re-order `categories`/`values` by descending value and truncate both to
10 entries; `labels`, `chart_type` and `title` are left untouched. -/
def finalize (d : VizData) : VizData :=
  if d.values.isEmpty then d
  else
    let sorted_data := sortByValueDesc (d.categories.zip d.values)
    let cats := sorted_data.map Prod.fst
    let vals := sorted_data.map Prod.snd
    if 10 < cats.length then
      { d with categories := cats.take 10, values := vals.take 10 }
    else { d with categories := cats, values := vals }

/-- `extract_data_for_visualization` (5-chat.py lines 144–236). -/
def extract_data_for_visualization (text : String) : VizData :=
  finalize (collectData text)

/-- The explicit chart-request phrase table of
`detect_visualization_request` (5-chat.py lines 316–325). -/
def explicit_visualization_keywords : List String :=
  [ "create chart", "make chart", "show chart", "display chart",
    "create graph", "make graph", "show graph", "display graph",
    "create plot", "make plot", "show plot", "display plot",
    "draw chart", "draw graph", "draw plot",
    "visualize", "visualise", "visualization", "visualisation",
    "chart of", "graph of", "plot of",
    "bar chart", "pie chart", "line chart", "scatter plot",
    "heatmap", "histogram" ]

/-- The text-only phrase table of `detect_visualization_request`
(5-chat.py lines 331–336). -/
def text_only_keywords : List String :=
  [ "what is", "what are", "how much", "how many", "when", "where", "why",
    "summarize", "summary", "explain", "describe", "tell me about",
    "average", "total", "price", "rent", "cost", "value", "trends",
    "analysis", "overview", "insights", "details", "information" ]

/-- The lower-cased character sequence of a string (Python `str.lower()`,
ASCII level). -/
def lowerStr (s : String) : List Char := s.toList.map Char.toLower

/-- Substring containment of a phrase in a lower-cased text. -/
def containsSubStr (needle : String) (hay : List Char) : Bool :=
  containsSub needle.toList hay

/-- `detect_visualization_request` (5-chat.py lines 310–342). -/
def detect_visualization_request (user_input : String) : Bool :=
  let lower := lowerStr user_input
  let has_visualization_keyword :=
    explicit_visualization_keywords.any (fun kw => containsSubStr kw lower)
  let has_text_only_keywords :=
    text_only_keywords.any (fun kw => containsSubStr kw lower)
  has_visualization_keyword && !has_text_only_keywords

/-- The (category, value) pairs held by an extractor state. -/
def pairsOf (d : VizData) : List (String × ℚ) := d.categories.zip d.values

/-- The candidate stream of the main extraction loop: every candidate
that survives the accumulator-independent filters of 5-chat.py lines
179–191, before the duplicate-category test of line 194. -/
def mainCandidates (text : String) : List (String × ℚ) :=
  (allMatches text.toList).filterMap candOf

/-- The candidate stream of the fallback loop (5-chat.py lines 209–220),
which has no duplicate-category test of its own. -/
def fallbackCandidates (text : String) : List (String × ℚ) :=
  real_estate_keywords.filterMap (fallbackCandOf text.toList)

/-- The full candidate stream: the fallback runs exactly when the main
loop produced nothing (5-chat.py line 202). -/
def candidatesOf (text : String) : List (String × ℚ) :=
  if (mainCandidates text).isEmpty then fallbackCandidates text
  else mainCandidates text

/-- One step of first-occurrence-wins deduplication by category: a pair
whose category already occurred is dropped, even if its value differs. -/
def dedupStep (acc : List (String × ℚ)) (p : String × ℚ) : List (String × ℚ) :=
  if p.1 ∈ acc.map Prod.fst then acc else acc ++ [ p ]

/-- First-occurrence-wins deduplication by category. -/
def dedupKeepFirst (l : List (String × ℚ)) : List (String × ℚ) :=
  l.foldl dedupStep []

/-- A text from which the main loop collects eleven data points — more
than the truncation bound of 10. -/
def elevenPointInput : String :=
  "Aaab: 1, Abbb: 2, Accc: 3, Addd: 4, Aeee: 5, Afff: 6, Aggg: 7, Ahhh: 8, Aiii: 9, Ajjj: 10, Akkk: 11"

/-- Modelled from the spec: the character kinds claim C9 allows in a
category — "only letters, digits, spaces, '&', and '-'" — to be compared
with the class `keepChar` actually kept by the code. -/
def specAllowedChar (c : Char) : Bool :=
  c.isAlpha || c.isDigit || c == spaceChar || c == '&' || c == '-'

instance : IsTotal (String × ℚ) (fun a b => b.2 ≤ a.2) :=
  ⟨fun a b => le_total b.2 a.2⟩

instance : IsTrans (String × ℚ) (fun a b => b.2 ≤ a.2) :=
  ⟨fun _ _ _ hab hbc => le_trans hbc hab⟩

/-- A predicate preserved by every step of a left fold holds of the
result. -/
theorem foldl_invariant {α β : Type} {P : α → Prop} (f : α → β → α) :
    ∀ (l : List β) (d : α), P d → (∀ a b, b ∈ l → P a → P (f a b)) →
      P (l.foldl f d)
  | [], _, h0, _ => h0
  | b :: l, d, h0, hstep =>
    foldl_invariant f l (f d b) (hstep d b (List.mem_cons_self b l) h0)
      (fun a b' hb' ha => hstep a b' (List.mem_cons_of_mem b hb') ha)

/-- The structural invariant of the extractor state: the labels are the
display strings of the data points in collection order, the three
sequences grow in lockstep, and the two fixed fields never change. -/
def Lockstep (d : VizData) : Prop :=
  d.labels = List.zipWith mkLabel d.categories d.values ∧
  d.categories.length = d.values.length ∧
  d.chart_type = "bar" ∧ d.title = "Real Estate Data Visualization"

theorem lockstep_init : Lockstep initData := ⟨rfl, rfl, rfl, rfl⟩

theorem lockstep_append {d : VizData} (cat : String) (val : ℚ)
    (h : Lockstep d) :
    Lockstep { d with categories := d.categories ++ [ cat ],
                      values := d.values ++ [ val ],
                      labels := d.labels ++ [ mkLabel cat val ] } := by
  obtain ⟨hl, hn, hc, ht⟩ := h
  refine ⟨?_, ?_, hc, ht⟩
  · simp only [hl]
    rw [List.zipWith_append mkLabel _ _ _ _ hn]
    rfl
  · simp [hn]

theorem lockstep_processMatch (d : VizData) (m : RawMatch)
    (h : Lockstep d) : Lockstep (processMatch d m) := by
  unfold processMatch
  rcases hc : candOf m with _ | ⟨cat, val⟩
  · exact h
  · by_cases hmem : cat ∈ d.categories
    · simp only [hmem, if_pos]
      exact h
    · simp only [hmem, if_neg, not_false_iff]
      exact lockstep_append cat val h

theorem lockstep_fallbackStep (t : List Char) (d : VizData) (kw : String)
    (h : Lockstep d) : Lockstep (fallbackStep t d kw) := by
  unfold fallbackStep
  rcases fallbackCandOf t kw with _ | ⟨cat, val⟩
  · exact h
  · exact lockstep_append cat val h

theorem lockstep_collect (s : String) : Lockstep (collectData s) := by
  simp only [collectData]
  have h1 : Lockstep ((allMatches s.toList).foldl processMatch initData) :=
    foldl_invariant processMatch _ initData lockstep_init
      (fun a b _ ha => lockstep_processMatch a b ha)
  split
  · exact foldl_invariant (fallbackStep s.toList) _ _ h1
      (fun a b _ ha => lockstep_fallbackStep s.toList a b ha)
  · exact h1

theorem finalize_labels (d : VizData) : (finalize d).labels = d.labels := by
  simp only [finalize]
  split
  · rfl
  · split <;> rfl

theorem finalize_chart_type (d : VizData) :
    (finalize d).chart_type = d.chart_type := by
  simp only [finalize]
  split
  · rfl
  · split <;> rfl

theorem finalize_title (d : VizData) : (finalize d).title = d.title := by
  simp only [finalize]
  split
  · rfl
  · split <;> rfl

theorem finalize_of_isEmpty {d : VizData} (h : d.values.isEmpty) :
    finalize d = d := by
  simp only [finalize]
  rw [if_pos h]

theorem finalize_cats_vals {d : VizData} (h : ¬ d.values.isEmpty = true) :
    (finalize d).categories = ((sortByValueDesc (pairsOf d)).take 10).map Prod.fst ∧
    (finalize d).values = ((sortByValueDesc (pairsOf d)).take 10).map Prod.snd := by
  simp only [finalize, pairsOf]
  rw [if_neg h]
  by_cases h10 : 10 < ((sortByValueDesc (d.categories.zip d.values)).map Prod.fst).length
  · rw [if_pos h10]
    constructor
    · exact (List.map_take Prod.fst (sortByValueDesc (d.categories.zip d.values)) 10).symm
    · exact (List.map_take Prod.snd (sortByValueDesc (d.categories.zip d.values)) 10).symm
  · rw [if_neg h10]
    rw [List.length_map] at h10
    have hle : (sortByValueDesc (d.categories.zip d.values)).length ≤ 10 :=
      Nat.le_of_not_lt h10
    rw [List.take_of_length_le hle]
    exact ⟨rfl, rfl⟩

theorem sortByValueDesc_perm (l : List (String × ℚ)) :
    List.Perm (sortByValueDesc l) l :=
  List.perm_insertionSort _ l

theorem sortByValueDesc_sorted (l : List (String × ℚ)) :
    List.Sorted (fun a b => b.2 ≤ a.2) (sortByValueDesc l) :=
  List.sorted_insertionSort _ l

theorem sortByValueDesc_length (l : List (String × ℚ)) :
    (sortByValueDesc l).length = l.length :=
  (sortByValueDesc_perm l).length_eq

theorem pairsOf_length {d : VizData} (h : d.categories.length = d.values.length) :
    (pairsOf d).length = d.values.length := by
  simp [pairsOf, h]

/-- The three lengths of a finalized extraction, in terms of the number
`n` of collected data points: categories and values are cut to
`min 10 n`, labels keep all `n` entries. -/
theorem extract_lengths (s : String) :
    (extract_data_for_visualization s).categories.length =
      min 10 (collectData s).values.length ∧
    (extract_data_for_visualization s).values.length =
      min 10 (collectData s).values.length ∧
    (extract_data_for_visualization s).labels.length =
      (collectData s).values.length := by
  obtain ⟨hl, hn, -, -⟩ := lockstep_collect s
  have hlab : (extract_data_for_visualization s).labels = (collectData s).labels :=
    finalize_labels (collectData s)
  have hlablen : (collectData s).labels.length = (collectData s).values.length := by
    rw [hl, List.length_zipWith, hn, min_self]
  by_cases he : (collectData s).values.isEmpty
  · have hfin : extract_data_for_visualization s = collectData s :=
      finalize_of_isEmpty he
    have hvnil : (collectData s).values = [] := List.isEmpty_iff.mp he
    have hcnil : (collectData s).categories = [] := by
      have : (collectData s).categories.length = 0 := by
        rw [hn, hvnil]
        rfl
      exact List.length_eq_zero.mp this
    rw [hfin]
    simp [hvnil, hcnil, hlablen]
  · obtain ⟨hc, hv⟩ := finalize_cats_vals he
    have hslen : (sortByValueDesc (pairsOf (collectData s))).length =
        (collectData s).values.length := by
      rw [sortByValueDesc_length, pairsOf_length hn]
    constructor
    · show (finalize (collectData s)).categories.length = _
      rw [hc, List.length_map, List.length_take, hslen]
    constructor
    · show (finalize (collectData s)).values.length = _
      rw [hv, List.length_map, List.length_take, hslen]
    · rw [hlab, hlablen]

theorem pairsOf_append {d : VizData} (cat : String) (val : ℚ) (lab : String)
    (hn : d.categories.length = d.values.length) :
    pairsOf { d with categories := d.categories ++ [ cat ],
                     values := d.values ++ [ val ],
                     labels := d.labels ++ [ lab ] } =
      pairsOf d ++ [ (cat, val) ] := by
  simp only [pairsOf]
  rw [List.zip_append hn]
  rfl

theorem mapFst_pairsOf {d : VizData}
    (hn : d.categories.length = d.values.length) :
    (pairsOf d).map Prod.fst = d.categories :=
  List.map_fst_zip _ _ hn.le

theorem foldl_processMatch_pairs :
    ∀ (ms : List RawMatch) (d : VizData),
      d.categories.length = d.values.length →
      pairsOf (ms.foldl processMatch d) =
        (ms.filterMap candOf).foldl dedupStep (pairsOf d) := by
  intro ms
  induction ms with
  | nil => intro d _; rfl
  | cons m ms ih =>
    intro d hn
    rcases hc : candOf m with _ | ⟨cat, val⟩
    · have h1 : processMatch d m = d := by simp [processMatch, hc]
      simp only [List.foldl_cons, List.filterMap_cons, hc, h1]
      exact ih d hn
    · simp only [List.foldl_cons, List.filterMap_cons, hc]
      by_cases hmem : cat ∈ d.categories
      · have h1 : processMatch d m = d := by simp [processMatch, hc, hmem]
        have h2 : dedupStep (pairsOf d) (cat, val) = pairsOf d := by
          simp only [dedupStep]
          rw [if_pos]
          rw [mapFst_pairsOf hn]
          exact hmem
        rw [h1, h2]
        exact ih d hn
      · have h1 : processMatch d m =
            { d with categories := d.categories ++ [ cat ],
                     values := d.values ++ [ val ],
                     labels := d.labels ++ [ mkLabel cat val ] } := by
          simp [processMatch, hc, hmem]
        have h2 : dedupStep (pairsOf d) (cat, val) = pairsOf d ++ [ (cat, val) ] := by
          simp only [dedupStep]
          rw [if_neg]
          rw [mapFst_pairsOf hn]
          exact hmem
        rw [h1, h2]
        have hn' : (d.categories ++ [ cat ]).length = (d.values ++ [ val ]).length := by
          simp [hn]
        have := ih { d with categories := d.categories ++ [ cat ],
                            values := d.values ++ [ val ],
                            labels := d.labels ++ [ mkLabel cat val ] } hn'
        rw [this, pairsOf_append cat val (mkLabel cat val) hn]

theorem foldl_fallbackStep_pairs (t : List Char) :
    ∀ (kws : List String) (d : VizData),
      d.categories.length = d.values.length →
      pairsOf (kws.foldl (fallbackStep t) d) =
        pairsOf d ++ kws.filterMap (fallbackCandOf t) := by
  intro kws
  induction kws with
  | nil => intro d _; simp
  | cons kw kws ih =>
    intro d hn
    rcases hc : fallbackCandOf t kw with _ | ⟨cat, val⟩
    · have h1 : fallbackStep t d kw = d := by simp [fallbackStep, hc]
      simp only [List.foldl_cons, List.filterMap_cons, hc, h1]
      exact ih d hn
    · have h1 : fallbackStep t d kw =
          { d with categories := d.categories ++ [ cat ],
                   values := d.values ++ [ val ],
                   labels := d.labels ++ [ mkLabel cat val ] } := by
        simp [fallbackStep, hc]
      simp only [List.foldl_cons, List.filterMap_cons, hc, h1]
      have hn' : (d.categories ++ [ cat ]).length = (d.values ++ [ val ]).length := by
        simp [hn]
      rw [ih _ hn', pairsOf_append cat val (mkLabel cat val) hn]
      simp

theorem foldl_dedupStep_length :
    ∀ (l : List (String × ℚ)) (acc : List (String × ℚ)),
      acc.length ≤ (l.foldl dedupStep acc).length := by
  intro l
  induction l with
  | nil => intro acc; exact le_refl _
  | cons p l ih =>
    intro acc
    refine le_trans ?_ (ih (dedupStep acc p))
    simp only [dedupStep]
    split
    · exact le_refl _
    · simp

theorem dedupKeepFirst_nil_iff (l : List (String × ℚ)) :
    dedupKeepFirst l = [] ↔ l = [] := by
  constructor
  · intro h
    cases l with
    | nil => rfl
    | cons p l =>
      exfalso
      have h1 : dedupStep [] p = [ p ] := by simp [dedupStep]
      have h2 : (1 : ℕ) ≤ (dedupKeepFirst (p :: l)).length := by
        show 1 ≤ ((p :: l).foldl dedupStep []).length
        rw [List.foldl_cons, h1]
        exact foldl_dedupStep_length l [ p ]
      rw [h] at h2
      exact absurd h2 (by simp)
  · intro h
    rw [h]
    rfl

theorem foldl_dedupStep_of_nodup :
    ∀ (l : List (String × ℚ)) (acc : List (String × ℚ)),
      (∀ p ∈ l, p.1 ∉ acc.map Prod.fst) → (l.map Prod.fst).Nodup →
      l.foldl dedupStep acc = acc ++ l := by
  intro l
  induction l with
  | nil => intro acc _ _; simp
  | cons p l ih =>
    intro acc hmem hnd
    have h1 : dedupStep acc p = acc ++ [ p ] := by
      simp only [dedupStep]
      rw [if_neg (hmem p (List.mem_cons_self p l))]
    rw [List.foldl_cons, h1, ih (acc ++ [ p ]) ?_ ?_]
    · simp
    · intro q hq
      rw [List.map_append]
      simp only [List.mem_append]
      rintro (h | h)
      · exact hmem q (List.mem_cons_of_mem p hq) h
      · simp only [List.map_cons, List.map_nil, List.mem_singleton] at h
        have : p.1 ∉ l.map Prod.fst := by
          have := hnd
          rw [List.map_cons, List.nodup_cons] at this
          exact this.1
        exact this (h ▸ List.mem_map_of_mem Prod.fst hq)
    · rw [List.map_cons, List.nodup_cons] at hnd
      exact hnd.2

theorem mapFst_foldl_dedup_nodup :
    ∀ (l : List (String × ℚ)) (acc : List (String × ℚ)),
      (acc.map Prod.fst).Nodup → ((l.foldl dedupStep acc).map Prod.fst).Nodup := by
  intro l
  induction l with
  | nil => intro acc h; exact h
  | cons p l ih =>
    intro acc h
    rw [List.foldl_cons]
    refine ih (dedupStep acc p) ?_
    simp only [dedupStep]
    split
    · exact h
    · rw [List.map_append]
      simp only [List.map_cons, List.map_nil]
      rw [List.nodup_append]
      refine ⟨h, List.nodup_singleton _, ?_⟩
      intro a ha
      simp only [List.mem_singleton]
      intro hb
      rename_i hnotmem
      exact hnotmem (hb ▸ ha)

theorem fallbackCandOf_fst (t : List Char) (kw : String) (p : String × ℚ)
    (h : fallbackCandOf t kw = some p) :
    p.1 = String.mk (pyTitle kw.toList) := by
  unfold fallbackCandOf at h
  split at h
  · split at h
    · exact absurd h (by simp)
    · split at h
      · exact absurd h (by simp)
      · split at h
        · rw [Option.some_inj] at h
          rw [← h]
        · exact absurd h (by simp)
  · exact absurd h (by simp)

theorem filterMap_sublist_map {β γ : Type} (f : β → Option γ) (g : β → γ)
    (hf : ∀ b x, f b = some x → x = g b) :
    ∀ l : List β, List.Sublist (l.filterMap f) (l.map g) := by
  intro l
  induction l with
  | nil => simp
  | cons b l ih =>
    rw [List.filterMap_cons, List.map_cons]
    rcases hb : f b with _ | x
    · exact ih.cons (g b)
    · rw [hf b x hb]
      exact ih.cons₂ (g b)

theorem fallbackCandidates_fst_nodup (s : String) :
    ((fallbackCandidates s).map Prod.fst).Nodup := by
  unfold fallbackCandidates
  rw [List.map_filterMap]
  refine List.Sublist.nodup
    (filterMap_sublist_map _ (fun kw => String.mk (pyTitle kw.toList)) ?_ _) ?_
  · intro kw x h
    rw [Option.map_eq_some'] at h
    obtain ⟨p, hp, hx⟩ := h
    rw [← hx]
    exact fallbackCandOf_fst s.toList kw p hp
  · decide

theorem values_isEmpty_iff_pairs {d : VizData}
    (hn : d.categories.length = d.values.length) :
    d.values.isEmpty = true ↔ pairsOf d = [] := by
  rw [List.isEmpty_iff, ← List.length_eq_zero, ← pairsOf_length hn,
    List.length_eq_zero]

/-- The collected data points are exactly the candidate stream with
first-occurrence-wins deduplication by category applied. -/
theorem pairsOf_collect (s : String) :
    pairsOf (collectData s) = dedupKeepFirst (candidatesOf s) := by
  have hlock1 : Lockstep ((allMatches s.toList).foldl processMatch initData) :=
    foldl_invariant processMatch _ initData lockstep_init
      (fun a b _ ha => lockstep_processMatch a b ha)
  have hpairs1 : pairsOf ((allMatches s.toList).foldl processMatch initData) =
      dedupKeepFirst (mainCandidates s) :=
    foldl_processMatch_pairs (allMatches s.toList) initData rfl
  simp only [collectData]
  by_cases he : ((allMatches s.toList).foldl processMatch initData).values.isEmpty
  · rw [if_pos he]
    have hpnil : pairsOf ((allMatches s.toList).foldl processMatch initData) = [] :=
      (values_isEmpty_iff_pairs hlock1.2.1).mp he
    have hmc : mainCandidates s = [] :=
      (dedupKeepFirst_nil_iff _).mp (hpairs1 ▸ hpnil)
    have hcand : candidatesOf s = fallbackCandidates s := by
      simp [candidatesOf, hmc]
    rw [foldl_fallbackStep_pairs s.toList _ _ hlock1.2.1, hpnil,
      List.nil_append, hcand]
    show fallbackCandidates s = dedupKeepFirst (fallbackCandidates s)
    rw [dedupKeepFirst,
      foldl_dedupStep_of_nodup _ [] (by simp) (fallbackCandidates_fst_nodup s)]
    simp
  · rw [if_neg he]
    have hpne : pairsOf ((allMatches s.toList).foldl processMatch initData) ≠ [] := by
      intro hx
      exact he ((values_isEmpty_iff_pairs hlock1.2.1).mpr hx)
    have hmcne : ¬ (mainCandidates s).isEmpty = true := by
      rw [List.isEmpty_iff]
      intro hx
      apply hpne
      rw [hpairs1, hx]
      rfl
    have hcand : candidatesOf s = mainCandidates s := by
      simp [candidatesOf, hmcne]
    rw [hpairs1, hcand]

theorem collect_cats_eq (s : String) :
    (collectData s).categories = (pairsOf (collectData s)).map Prod.fst :=
  (mapFst_pairsOf (lockstep_collect s).2.1).symm

theorem collect_cats_nodup (s : String) :
    (collectData s).categories.Nodup := by
  rw [collect_cats_eq, pairsOf_collect]
  exact mapFst_foldl_dedup_nodup _ [] (by simp)

theorem extract_cats_nodup (s : String) :
    (extract_data_for_visualization s).categories.Nodup := by
  by_cases he : (collectData s).values.isEmpty
  · show (finalize (collectData s)).categories.Nodup
    rw [finalize_of_isEmpty he]
    exact collect_cats_nodup s
  · obtain ⟨hc, -⟩ := finalize_cats_vals he
    show (finalize (collectData s)).categories.Nodup
    rw [hc, List.map_take]
    have h1 : ((sortByValueDesc (pairsOf (collectData s))).map Prod.fst).Nodup := by
      refine ((sortByValueDesc_perm (pairsOf (collectData s))).map Prod.fst).symm.nodup ?_
      rw [← collect_cats_eq]
      exact collect_cats_nodup s
    exact (List.take_sublist 10 _).nodup h1

theorem extract_cats_subset (s : String) :
    (extract_data_for_visualization s).categories ⊆ (collectData s).categories := by
  by_cases he : (collectData s).values.isEmpty
  · show (finalize (collectData s)).categories ⊆ _
    rw [finalize_of_isEmpty he]
    exact fun x hx => hx
  · obtain ⟨hc, -⟩ := finalize_cats_vals he
    show (finalize (collectData s)).categories ⊆ _
    rw [hc, List.map_take]
    intro cat hcat
    have h1 : cat ∈ (sortByValueDesc (pairsOf (collectData s))).map Prod.fst :=
      (List.take_sublist 10 _).subset hcat
    have h2 : cat ∈ (pairsOf (collectData s)).map Prod.fst :=
      ((sortByValueDesc_perm (pairsOf (collectData s))).map Prod.fst).subset h1
    rw [← collect_cats_eq] at h2
    exact h2

/-- The character invariant of collected categories: every character was
kept by the `[\w\s\-&]` class (main loop) or comes from a title-cased
fallback keyword, all of whose characters are in the class as well. -/
def CatInv (d : VizData) : Prop :=
  ∀ cat ∈ d.categories, ∀ ch ∈ cat.toList, keepChar ch = true

theorem candOf_chars (m : RawMatch) (cat : String) (v : ℚ)
    (h : candOf m = some (cat, v)) :
    ∀ ch ∈ cat.toList, keepChar ch = true := by
  simp only [candOf] at h
  split at h
  · exact absurd h (by simp)
  · split at h
    · exact absurd h (by simp)
    · split at h
      · exact absurd h (by simp)
      · split at h
        · exact absurd h (by simp)
        · split at h
          · exact absurd h (by simp)
          · rw [Option.some_inj] at h
            have hcat : cat = String.mk ((pyStrip (collapseWs (pyStrip m.1))).filter keepChar) := by
              have := congrArg Prod.fst h
              exact this.symm
            rw [hcat]
            intro ch hch
            exact List.of_mem_filter hch

theorem keywords_chars :
    real_estate_keywords.all (fun kw => (pyTitle kw.toList).all keepChar) = true := by
  decide

theorem catInv_processMatch (d : VizData) (m : RawMatch)
    (h : CatInv d) : CatInv (processMatch d m) := by
  unfold processMatch
  rcases hc : candOf m with _ | ⟨cat, val⟩
  · exact h
  · by_cases hmem : cat ∈ d.categories
    · simp only [hmem, if_pos]
      exact h
    · simp only [hmem, if_neg, not_false_iff]
      intro c hcmem ch hch
      rcases List.mem_append.mp hcmem with hin | hin
      · exact h c hin ch hch
      · rw [List.mem_singleton] at hin
        subst hin
        exact candOf_chars m c val hc ch hch

theorem catInv_fallbackStep (t : List Char) (d : VizData) (kw : String)
    (hkw : kw ∈ real_estate_keywords) (h : CatInv d) :
    CatInv (fallbackStep t d kw) := by
  unfold fallbackStep
  rcases hc : fallbackCandOf t kw with _ | ⟨cat, val⟩
  · exact h
  · intro c hcmem ch hch
    rcases List.mem_append.mp hcmem with hin | hin
    · exact h c hin ch hch
    · rw [List.mem_singleton] at hin
      subst hin
      have hcat : c = String.mk (pyTitle kw.toList) :=
        fallbackCandOf_fst t kw (c, val) hc
      have hall := (List.all_eq_true.mp keywords_chars) kw hkw
      rw [hcat] at hch
      exact List.all_eq_true.mp hall ch hch

theorem catInv_collect (s : String) : CatInv (collectData s) := by
  simp only [collectData]
  have h1 : CatInv ((allMatches s.toList).foldl processMatch initData) :=
    foldl_invariant processMatch _ initData (by intro c hc; exact absurd hc (by simp [initData]))
      (fun a b _ ha => catInv_processMatch a b ha)
  split
  · exact foldl_invariant (fallbackStep s.toList) _ _ h1
      (fun a b hb ha => catInv_fallbackStep s.toList a b hb ha)
  · exact h1

set_option maxRecDepth 10000

/-- C1 (counterexample): on an input with eleven collected data points,
finalization truncates `categories` and `values` to 10 entries but
leaves all eleven `labels`, so the three lengths are not all equal. -/
theorem claim_C1_counterexample :
    ¬ ((extract_data_for_visualization elevenPointInput).categories.length =
        (extract_data_for_visualization elevenPointInput).values.length ∧
       (extract_data_for_visualization elevenPointInput).values.length =
        (extract_data_for_visualization elevenPointInput).labels.length) := by
  decide

/-- C1 (amended): for every input, `categories` and `values` always have
equal length; `labels` keeps one entry per collected data point, so all
three lengths agree exactly when at most 10 data points were collected
(truncation never touches `labels`). -/
theorem claim_C1_amended : ∀ s : String,
    (extract_data_for_visualization s).categories.length =
      (extract_data_for_visualization s).values.length ∧
    (extract_data_for_visualization s).labels.length =
      (collectData s).values.length ∧
    ((collectData s).values.length ≤ 10 →
      (extract_data_for_visualization s).values.length =
        (extract_data_for_visualization s).labels.length) := by
  intro s
  obtain ⟨h1, h2, h3⟩ := extract_lengths s
  refine ⟨by rw [h1, h2], h3, fun hle => ?_⟩
  rw [h2, h3]
  omega

/-- C1 (witness): the amended theorem applied at a one-point input. -/
theorem claim_C1_witness :
    (collectData "Aaaa: 5").values.length ≤ 10 ∧
    (extract_data_for_visualization "Aaaa: 5").values.length =
      (extract_data_for_visualization "Aaaa: 5").labels.length :=
  ⟨by decide, (claim_C1_amended "Aaaa: 5").2.2 (by decide)⟩

/-- C2 (counterexample): after sorting, `categories[0]`/`values[0]` hold
the data point `("Bbbb", 2)` but `labels[0]` is still the display string
of the first collected point `("Aaaa", 1)`, not `"Bbbb: 2.00"`. -/
theorem claim_C2_counterexample :
    (extract_data_for_visualization "Aaaa: 1, Bbbb: 2").categories.head? = some "Bbbb" ∧
    (extract_data_for_visualization "Aaaa: 1, Bbbb: 2").values.head? = some 2 ∧
    (extract_data_for_visualization "Aaaa: 1, Bbbb: 2").labels.head? = some "Aaaa: 1.00" ∧
    ¬ (extract_data_for_visualization "Aaaa: 1, Bbbb: 2").labels.head? =
        some (mkLabel "Bbbb" 2) :=
  ⟨by decide, by decide, by decide, by decide⟩

/-- C2 (amended): for every input, `labels[i]` is the display string
`"<category>: <value formatted>"` of the i-th data point in collection
order — labels stay parallel to the pre-sort, pre-truncation sequence,
not to the returned `categories`/`values`. -/
theorem claim_C2_amended : ∀ s : String,
    (extract_data_for_visualization s).labels =
      List.zipWith mkLabel (collectData s).categories (collectData s).values := by
  intro s
  rw [show (extract_data_for_visualization s).labels = (collectData s).labels from
    finalize_labels _]
  exact (lockstep_collect s).1

/-- C3 (counterexample): `"create a bar chart of prices"` contains the
text-only phrase `"price"` (inside `"prices"`), so the detector returns
`false`, not `true` as claimed. -/
theorem claim_C3_counterexample :
    detect_visualization_request "create a bar chart of prices" = false := by
  decide

/-- C3 (amended): the detector returns true exactly when the lower-cased
text contains an explicit chart-request phrase and no text-only phrase;
since the text-only phrase `"price"` occurs inside `"prices"`, the
scenario `"create a bar chart of prices"` yields `false`, and
`"what is the average price"` yields `false` as claimed. -/
theorem claim_C3_amended :
    (∀ s : String, detect_visualization_request s = true ↔
      ((∃ kw ∈ explicit_visualization_keywords, containsSubStr kw (lowerStr s) = true) ∧
       (∀ kw ∈ text_only_keywords, containsSubStr kw (lowerStr s) = false))) ∧
    detect_visualization_request "create a bar chart of prices" = false ∧
    detect_visualization_request "what is the average price" = false := by
  refine ⟨fun s => ?_, by decide, by decide⟩
  simp [detect_visualization_request, List.any_eq_true, List.any_eq_false,
    Bool.and_eq_true, Bool.not_eq_true']

/-- C3 (witness): the amended characterization applied at a phrase that
contains an explicit chart request and no text-only phrase. -/
theorem claim_C3_witness : detect_visualization_request "draw chart" = true :=
  (claim_C3_amended.1 "draw chart").mpr ⟨by decide, by decide⟩

/-- C4: when any data points were collected, the returned values are
sorted non-increasing, at most 10 categories remain, the returned
(category, value) pairs are exactly the first 10 of the value-descending
reordering of the collected pairs, and every retained value is at least
every dropped value. -/
theorem claim_C4 : ∀ s : String, (collectData s).values ≠ [] →
    List.Sorted (fun a b : ℚ => b ≤ a) (extract_data_for_visualization s).values ∧
    (extract_data_for_visualization s).categories.length ≤ 10 ∧
    List.Perm (sortByValueDesc (pairsOf (collectData s))) (pairsOf (collectData s)) ∧
    List.Sorted (fun p q : String × ℚ => q.2 ≤ p.2)
      (sortByValueDesc (pairsOf (collectData s))) ∧
    (extract_data_for_visualization s).categories.zip
        (extract_data_for_visualization s).values =
      (sortByValueDesc (pairsOf (collectData s))).take 10 ∧
    (∀ p ∈ (sortByValueDesc (pairsOf (collectData s))).take 10,
      ∀ q ∈ (sortByValueDesc (pairsOf (collectData s))).drop 10, q.2 ≤ p.2) := by
  intro s hne
  have he : ¬ (collectData s).values.isEmpty = true := by
    rw [List.isEmpty_iff]
    exact hne
  obtain ⟨hc, hv⟩ := finalize_cats_vals he
  have hsorted := sortByValueDesc_sorted (pairsOf (collectData s))
  have hperm := sortByValueDesc_perm (pairsOf (collectData s))
  have htake : List.Pairwise (fun p q : String × ℚ => q.2 ≤ p.2)
      ((sortByValueDesc (pairsOf (collectData s))).take 10) :=
    List.Pairwise.sublist (List.take_sublist 10 _) hsorted
  refine ⟨?_, ?_, hperm, hsorted, ?_, ?_⟩
  · show List.Sorted _ (finalize (collectData s)).values
    rw [hv]
    exact List.Pairwise.map Prod.snd (fun a b h => h) htake
  · obtain ⟨h1, -, -⟩ := extract_lengths s
    rw [h1]
    exact Nat.min_le_left _ _
  · show (finalize (collectData s)).categories.zip (finalize (collectData s)).values = _
    rw [hc, hv, List.zip_map']
    simp
  · have hp : List.Pairwise (fun p q : String × ℚ => q.2 ≤ p.2)
        ((sortByValueDesc (pairsOf (collectData s))).take 10 ++
         (sortByValueDesc (pairsOf (collectData s))).drop 10) := by
      rw [List.take_append_drop]
      exact hsorted
    exact (List.pairwise_append.mp hp).2.2

/-- C4 (witness): the theorem applied at a one-point input. -/
theorem claim_C4_witness :
    (collectData "Aaaa: 5").values ≠ [] ∧
    List.Sorted (fun a b : ℚ => b ≤ a)
      (extract_data_for_visualization "Aaaa: 5").values :=
  ⟨by decide, (claim_C4 "Aaaa: 5" (by decide)).1⟩

/-- C5: the returned categories never contain a duplicate; the collected
data points are exactly the candidate stream with first-occurrence-wins
deduplication by category (a later candidate with an already-present
label is dropped even if its value differs); on
`"Revenue: 100, Revenue: 200"` only the first occurrence, with value
100, is retained. -/
theorem claim_C5 :
    (∀ s : String, (extract_data_for_visualization s).categories.Nodup) ∧
    (∀ s : String, pairsOf (collectData s) = dedupKeepFirst (candidatesOf s)) ∧
    (extract_data_for_visualization "Revenue: 100, Revenue: 200").categories =
      [ "Revenue" ] ∧
    (extract_data_for_visualization "Revenue: 100, Revenue: 200").values = [ 100 ] :=
  ⟨extract_cats_nodup, pairsOf_collect, by decide, by decide⟩

/-- C6: the three-point scenario extracts all three data points and
returns them sorted by value descending. -/
theorem claim_C6 :
    (extract_data_for_visualization "Ahmadi: 1250, Hawally: 980, Capital: 2100").categories =
      [ "Capital", "Ahmadi", "Hawally" ] ∧
    (extract_data_for_visualization "Ahmadi: 1250, Hawally: 980, Capital: 2100").values =
      [ 2100, 1250, 980 ] :=
  ⟨by decide, by decide⟩

/-- C7: `"Total: KD 5.2 billion"` yields exactly one data point, with
value 26/5 = 5.2 and category `"Total"`, which contains none of the
punctuation of `"Total:"`. -/
theorem claim_C7 :
    (extract_data_for_visualization "Total: KD 5.2 billion").categories = [ "Total" ] ∧
    (extract_data_for_visualization "Total: KD 5.2 billion").values = [ mkRat 26 5 ] ∧
    (extract_data_for_visualization "Total: KD 5.2 billion").labels = [ "Total: 5.20" ] ∧
    ':' ∉ "Total".toList :=
  ⟨by decide, by decide, by decide, by decide⟩

/-- C8: the three sequences are empty together (the empty result is
never partially populated), and any text with no pattern match and no
fallback keyword yields the all-empty result; the embedding is a total
function, modelling that extraction never raises. -/
theorem claim_C8 : ∀ s : String,
    ((extract_data_for_visualization s).categories = [] ↔
      (extract_data_for_visualization s).values = []) ∧
    ((extract_data_for_visualization s).values = [] ↔
      (extract_data_for_visualization s).labels = []) ∧
    ((allMatches s.toList = [] ∧
      ∀ kw ∈ real_estate_keywords,
        containsSub kw.toList (s.toList.map Char.toLower) = false) →
      (extract_data_for_visualization s).categories = [] ∧
      (extract_data_for_visualization s).values = [] ∧
      (extract_data_for_visualization s).labels = []) := by
  intro s
  obtain ⟨h1, h2, h3⟩ := extract_lengths s
  refine ⟨?_, ?_, ?_⟩
  · rw [← List.length_eq_zero, ← List.length_eq_zero, h1, h2]
  · rw [← List.length_eq_zero, ← List.length_eq_zero, h2, h3]
    omega
  · rintro ⟨hm, hkw⟩
    have hcol : collectData s = initData := by
      simp only [collectData, hm, List.foldl_nil]
      rw [if_pos (show initData.values.isEmpty = true from rfl)]
      refine (foldl_invariant (fallbackStep s.toList) real_estate_keywords initData rfl ?_).symm
      intro a kw hkw' ha
      rw [← ha]
      have hkw2 := hkw kw hkw'
      simp only [String.toList] at hkw2
      simp [fallbackStep, fallbackCandOf, hkw2]
    rw [show extract_data_for_visualization s = finalize (collectData s) from rfl, hcol]
    exact ⟨rfl, rfl, rfl⟩

/-- C8 (witness): the no-data consequence applied at `"hello world"`,
which matches no pattern and contains no fallback keyword. -/
theorem claim_C8_witness :
    (allMatches "hello world".toList = [] ∧
      ∀ kw ∈ real_estate_keywords,
        containsSub kw.toList ("hello world".toList.map Char.toLower) = false) ∧
    (extract_data_for_visualization "hello world").values = [] :=
  ⟨⟨by decide, by decide⟩,
   ((claim_C8 "hello world").2.2 ⟨by decide, by decide⟩).2.1⟩

/-- C9 (counterexample): `"Total_Amount: 500"` keeps the underscore (it
is a `\w` word character), so the returned category contains a character
outside the claim's letters/digits/space/`&`/`-` list. -/
theorem claim_C9_counterexample :
    "Total_Amount" ∈ (extract_data_for_visualization "Total_Amount: 500").categories ∧
    '_' ∈ "Total_Amount".toList ∧ specAllowedChar '_' = false :=
  ⟨by decide, by decide, by decide⟩

/-- C9 (amended): every character of every returned category is a word
character (letter, digit, or underscore), whitespace, `&`, or `-` — the
class kept by the cleanup substitution. -/
theorem claim_C9_amended : ∀ s : String,
    ∀ cat ∈ (extract_data_for_visualization s).categories,
    ∀ ch ∈ cat.toList,
      isWordChar ch = true ∨ isSpaceChar ch = true ∨ ch = '&' ∨ ch = '-' := by
  intro s cat hcat ch hch
  have h1 : keepChar ch = true :=
    catInv_collect s cat (extract_cats_subset s hcat) ch hch
  simp only [keepChar, Bool.or_eq_true, beq_iff_eq] at h1
  tauto

/-- C9 (witness): the amended theorem applied at a concrete input,
category and character. -/
theorem claim_C9_witness :
    isWordChar 'A' = true ∨ isSpaceChar 'A' = true ∨ 'A' = '&' ∨ 'A' = '-' :=
  claim_C9_amended "Aaaa: 5" "Aaaa" (by decide) 'A' (by decide)

/-- C10: the `chart_type` hint is always `"bar"` and the title is always
`"Real Estate Data Visualization"`; neither extraction, fallback, nor
finalization touches these two fields. -/
theorem claim_C10 : ∀ s : String,
    (extract_data_for_visualization s).chart_type = "bar" ∧
    (extract_data_for_visualization s).title = "Real Estate Data Visualization" := by
  intro s
  obtain ⟨-, -, hct, hti⟩ := lockstep_collect s
  constructor
  · rw [show (extract_data_for_visualization s).chart_type =
      (collectData s).chart_type from finalize_chart_type _, hct]
  · rw [show (extract_data_for_visualization s).title =
      (collectData s).title from finalize_title _, hti]
